import Mathlib

/-!
Shallow embedding of `src/prompt_runner.py` (the GSM8K baseline evaluation
runner).  Python strings are modelled as `List Char`, `None`/`str` values as
`Option (List Char)`, and Python floats as IEEE binary64 values (`PyVal`):
`float(text)` parses to an exact decimal and is then correctly rounded to a
dyadic `n · 2 ^ t` (round to nearest, ties to even, gradual underflow,
overflow saturating to the signed infinity), and the scorer's
`abs(pred - ref) < 1e-5` is transliterated operation by operation in that
arithmetic (`fpSub`, `fpAbs`, `fpLt`, `tol64`), every step in executable
integer arithmetic.  The accuracy — an exact small division in the source's
float range — is modelled as `ℚ`.  The two regular expressions of
`extract_gsm8k_answer` are embedded as deterministic scanners: for these
particular patterns the backtracking of Python's `re` engine never changes
the outcome (every character class involved is disjoint from the classes
that follow it), so the greedy left-to-right reading below is the exact
match semantics.
-/

/-- Python `\s` (ASCII range), also the character set of `str.strip()`. -/
def isPySpace (c : Char) : Bool :=
  c == ' ' || c == '\t' || c == '\n' || c == '\r' || c == '\x0b' || c == '\x0c'

/-- Characters matched by the class `[-\d\.,]` of the marker pattern. -/
def isMarkerChar (c : Char) : Bool :=
  c == '-' || c.isDigit || c == '.' || c == ','

/-- Characters matched by the class `[\d,]` of the fallback pattern. -/
def isDigitComma (c : Char) : Bool :=
  c.isDigit || c == ','

/-- Characters matched by `[-+]`. -/
def isSign (c : Char) : Bool :=
  c == '-' || c == '+'

/-- Python `str.strip()`: drop leading and trailing whitespace. -/
def pstrip (l : List Char) : List Char :=
  ((l.dropWhile isPySpace).reverse.dropWhile isPySpace).reverse

/-- Python `s.replace(',', '')`: remove every comma. -/
def stripCommas (l : List Char) : List Char :=
  l.filter (fun c => c != ',')

/-- `s.replace(',', '').strip()` as applied to both extraction results. -/
def cleanStr (l : List Char) : List Char :=
  pstrip (stripCommas l)

/-- Attempt of the pattern `####\s*([-\d\.,]+)` anchored at the head of `l`;
returns the captured group.  (`\s*` is greedy but the class `[-\d\.,]`
contains no whitespace, so backtracking over `\s*` can never succeed.) -/
def markerHead (l : List Char) : Option (List Char) :=
  match l with
  | [] => none
  | c :: rest =>
    if c = '#' ∧ rest.take 3 = ['#', '#', '#'] then
      let g := ((rest.drop 3).dropWhile isPySpace).takeWhile isMarkerChar
      if g = [] then none else some g
    else none

/-- `re.search(r"####\s*([-\d\.,]+)", text)`: the group of the match at the
leftmost position where the whole pattern matches. -/
def markerSearch : List Char → Option (List Char)
  | [] => none
  | c :: rest =>
    match markerHead (c :: rest) with
    | some g => some g
    | none => markerSearch rest

/-- Optionally consume one character satisfying `p`. -/
def optc (p : Char → Bool) : List Char → List Char × List Char
  | [] => ([], [])
  | c :: rest => if p c then ([c], rest) else ([], c :: rest)

/-- Attempt of the first alternative `[-+]?\s*[\d,]+\.?\d*` anchored at the
head; returns (matched text, rest). -/
def matchAlt1 (l : List Char) : Option (List Char × List Char) :=
  let a := (optc isSign l).1
  let r1 := (optc isSign l).2
  let b := r1.takeWhile isPySpace
  let r2 := r1.dropWhile isPySpace
  let c := r2.takeWhile isDigitComma
  let r3 := r2.dropWhile isDigitComma
  if c = [] then none
  else
    let d := (optc (fun x => x == '.') r3).1
    let r4 := (optc (fun x => x == '.') r3).2
    let e := r4.takeWhile Char.isDigit
    let r5 := r4.dropWhile Char.isDigit
    some (a ++ b ++ c ++ d ++ e, r5)

/-- Attempt of the second alternative `[-+]?\s*\.?[\d,]+` anchored at the
head; returns (matched text, rest). -/
def matchAlt2 (l : List Char) : Option (List Char × List Char) :=
  let a := (optc isSign l).1
  let r1 := (optc isSign l).2
  let b := r1.takeWhile isPySpace
  let r2 := r1.dropWhile isPySpace
  let c := (optc (fun x => x == '.') r2).1
  let r3 := (optc (fun x => x == '.') r2).2
  let d := r3.takeWhile isDigitComma
  let r4 := r3.dropWhile isDigitComma
  if d = [] then none else some (a ++ b ++ c ++ d, r4)

/-- Attempt of `[-+]?\s*[\d,]+\.?\d*|[-+]?\s*\.?[\d,]+` anchored at the
head: Python's alternation prefers the first alternative. -/
def matchNum (l : List Char) : Option (List Char × List Char) :=
  match matchAlt1 l with
  | some r => some r
  | none => matchAlt2 l

/-- Scanner of `re.findall`: try a match at each position, on success
continue after it.  The fuel argument bounds the number of scan steps; every
step consumes at least one character, so an initial fuel of `l.length`
(see `findNums`) is never exhausted: `findAux_adequate` below makes the fuel
irrelevance precise. -/
def findAux : ℕ → List Char → List (List Char)
  | 0, _ => []
  | _, [] => []
  | fuel + 1, c :: rest =>
    match matchNum (c :: rest) with
    | some (m, r) => m :: findAux fuel r
    | none => findAux fuel rest

/-- `re.findall(r"[-+]?\s*[\d,]+\.?\d*|[-+]?\s*\.?[\d,]+", text)`. -/
def findNums (l : List Char) : List (List Char) :=
  findAux l.length l

/-- Fallback branch of `extract_gsm8k_answer` (lines 46-57 of the source):
take the last number found, clean it, and reject an empty or lone-dot
result. -/
def fallbackScan (t : List Char) : Option (List Char) :=
  match (findNums t).getLast? with
  | some m =>
    if cleanStr m = [] ∨ cleanStr m = ['.'] then none else some (cleanStr m)
  | none => none

/-- `extract_gsm8k_answer` from `src/prompt_runner.py`. -/
def extract_gsm8k_answer (t : List Char) : Option (List Char) :=
  if t = [] then none
  else
    match markerSearch t with
    | some g => some (cleanStr g)
    | none => fallbackScan t

/-- The marker branch alone (lines 38-44 of the source), with no fallback. -/
def extractMarkerOnly (t : List Char) : Option (List Char) :=
  if t = [] then none else Option.map cleanStr (markerSearch t)

/-- Run of `digit (["_"] digit)*` of the Python float grammar: accumulates
the value and the number of digits consumed, stopping before a trailing
underscore (which then makes the whole parse fail on leftover input). -/
def digitRun : ℕ → ℕ → List Char → ℕ × ℕ × List Char
  | acc, cnt, [] => (acc, cnt, [])
  | acc, cnt, c :: rest =>
    if c.isDigit then digitRun (10 * acc + (c.toNat - 48)) (cnt + 1) rest
    else if c = '_' then
      match rest with
      | d :: rest2 =>
        if d.isDigit then digitRun (10 * acc + (d.toNat - 48)) (cnt + 1) rest2
        else (acc, cnt, c :: rest)
      | [] => (acc, cnt, [c])
    else (acc, cnt, c :: rest)

/-- `digitpart` of the Python float grammar: at least one digit. -/
def digitPart (l : List Char) : Option (ℕ × ℕ × List Char) :=
  match l with
  | c :: rest => if c.isDigit then some (digitRun (c.toNat - 48) 1 rest) else none
  | [] => none

/-- Exponent suffix and end of input: given mantissa `m` with `s` fractional
digits, consume `([eE] [+-]? digitpart)?` and require the rest empty.  The
result `(m', s')` denotes the value `m' / 10 ^ s'`. -/
def applyExp (m : ℕ) (s : ℕ) (l : List Char) : Option (ℕ × ℕ) :=
  match l with
  | [] => some (m, s)
  | c :: rest =>
    if c = 'e' ∨ c = 'E' then
      let neg := match rest with
        | '-' :: _ => true
        | _ => false
      let r1 := match rest with
        | '-' :: r => r
        | '+' :: r => r
        | _ => rest
      match digitPart r1 with
      | some (k, _, r2) =>
        if r2 = [] then some (if neg then (m, s + k) else (m * 10 ^ k, s)) else none
      | none => none
    else none

/-- Unsigned body of Python's `float()` grammar:
`(digitpart ["." [digitpart]] | "." digitpart) [exponent]`, entire input
consumed.  The result `(m, s)` denotes the exact value `m / 10 ^ s`. -/
def parseNumber (l : List Char) : Option (ℕ × ℕ) :=
  match l with
  | '.' :: rest =>
    match digitPart rest with
    | some (f, cnt, r) => applyExp f cnt r
    | none => none
  | _ =>
    match digitPart l with
    | some (n, _, r) =>
      match r with
      | '.' :: r2 =>
        match digitPart r2 with
        | some (f, cnt, r3) => applyExp (n * 10 ^ cnt + f) cnt r3
        | none => applyExp n 0 r2
      | _ => applyExp n 0 r
    | none => none

/-- A Python float (IEEE binary64): a finite value is the dyadic
`n · 2 ^ t` (the pair need not be normalised; every value produced below is
exactly representable in binary64), or an infinity, or NaN. -/
inductive PyVal where
  | finite : ℤ → ℤ → PyVal
  | inf : PyVal
  | neginf : PyVal
  | nan : PyVal
deriving DecidableEq

/-- Round half to even of `a / b` (`b > 0`) to a natural number. -/
def rheNat (a b : ℕ) : ℕ :=
  let q := a / b
  let r := a % b
  if 2 * r < b then q
  else if b < 2 * r then q + 1
  else if q % 2 = 0 then q else q + 1

/-- Decides `2 ^ e ≤ num / den` for positive `num / den`. -/
def pow2Le (e : ℤ) (num den : ℕ) : Bool :=
  if 0 ≤ e then decide (2 ^ e.toNat * den ≤ num)
  else decide (den ≤ num * 2 ^ (-e).toNat)

/-- `Nat.log2` with explicit fuel, structurally recursive so that the
kernel can evaluate it; `nlog2_eq` below proves it equal to `Nat.log2`. -/
def log2fuel : ℕ → ℕ → ℕ
  | 0, _ => 0
  | fuel + 1, n => if 2 ≤ n then log2fuel fuel (n / 2) + 1 else 0

/-- `⌊log₂ n⌋` for `n > 0` (and `0` at `0`), executable in the kernel. -/
def nlog2 (n : ℕ) : ℕ := log2fuel n n

/-- The floor of `log₂ (num / den)` for positive `num / den`: the first
guess from the integer logarithms is off by at most one and is checked
directly. -/
def ilog2 (num den : ℕ) : ℤ :=
  let e0 : ℤ := (nlog2 num : ℤ) - (nlog2 den : ℤ)
  if pow2Le e0 num den then e0 else e0 - 1

/-- Correct rounding of a positive rational `num / den` to IEEE binary64
(round to nearest, ties to even, gradual underflow): `some (n, t)` denotes
the double `n · 2 ^ t`; `none` is overflow to infinity.  A value in binade
`e` is rounded at unit `2 ^ (e - 52)` (or at `2 ^ (-1074)` below the normal
range), and the result overflows exactly when it reaches `2 ^ 1024`. -/
def roundPos (num den : ℕ) : Option (ℕ × ℤ) :=
  let e := ilog2 num den
  let t : ℤ := if -1022 ≤ e then e - 52 else -1074
  let n := rheNat (num * 2 ^ (-t).toNat) (den * 2 ^ t.toNat)
  if 2 ^ (1024 + (-t).toNat) ≤ n * 2 ^ t.toNat then none else some (n, t)

/-- The double obtained from the sign and the exact decimal `m / 10 ^ s` of
a parsed literal; CPython's `float()` is correctly rounded, so one rounding
of the exact decimal is its exact semantics. -/
def roundDec (neg : Bool) (m : ℕ) (s : ℕ) : PyVal :=
  if m = 0 then PyVal.finite 0 0
  else
    match roundPos m (10 ^ s) with
    | some (n, t) => PyVal.finite (if neg then -(n : ℤ) else (n : ℤ)) t
    | none => if neg then PyVal.neginf else PyVal.inf

/-- Python `float(text)`: strip whitespace, optional sign, then either a
case-insensitive `inf`/`infinity`/`nan` or a decimal number rounded to
binary64; `none` models the `ValueError`. -/
def pyFloat (t : List Char) : Option PyVal :=
  let s := pstrip t
  let neg := match s with
    | '-' :: _ => true
    | _ => false
  let body := match s with
    | '-' :: r => r
    | '+' :: r => r
    | _ => s
  let low := body.map Char.toLower
  if low = "inf".toList ∨ low = "infinity".toList then
    some (if neg then PyVal.neginf else PyVal.inf)
  else if low = "nan".toList then some PyVal.nan
  else
    match parseNumber body with
    | some (m, sc) => some (roundDec neg m sc)
    | none => none

/-- The exact difference of two finite doubles as a signed dyadic
`D · 2 ^ tm`. -/
def dyadicSub (n1 t1 n2 t2 : ℤ) : ℤ × ℤ :=
  let tm := min t1 t2
  (n1 * 2 ^ (t1 - tm).toNat - n2 * 2 ^ (t2 - tm).toNat, tm)

/-- IEEE binary64 subtraction on parsed values: the exact difference of two
finite doubles re-rounded to binary64 (overflowing to the signed infinity),
with the usual infinity and NaN propagation (`inf - inf = nan`). -/
def fpSub : PyVal → PyVal → PyVal
  | PyVal.finite n1 t1, PyVal.finite n2 t2 =>
    let p := dyadicSub n1 t1 n2 t2
    if p.1 = 0 then PyVal.finite 0 0
    else
      match roundPos (p.1.natAbs * 2 ^ p.2.toNat) (2 ^ (-p.2).toNat) with
      | some (n, t) => PyVal.finite (if p.1 < 0 then -(n : ℤ) else (n : ℤ)) t
      | none => if p.1 < 0 then PyVal.neginf else PyVal.inf
  | PyVal.finite _ _, PyVal.inf => PyVal.neginf
  | PyVal.finite _ _, PyVal.neginf => PyVal.inf
  | PyVal.inf, PyVal.finite _ _ => PyVal.inf
  | PyVal.inf, PyVal.neginf => PyVal.inf
  | PyVal.inf, PyVal.inf => PyVal.nan
  | PyVal.neginf, PyVal.finite _ _ => PyVal.neginf
  | PyVal.neginf, PyVal.inf => PyVal.neginf
  | PyVal.neginf, PyVal.neginf => PyVal.nan
  | PyVal.nan, _ => PyVal.nan
  | _, PyVal.nan => PyVal.nan

/-- IEEE `abs` on parsed values. -/
def fpAbs : PyVal → PyVal
  | PyVal.finite n t => PyVal.finite (n.natAbs : ℤ) t
  | PyVal.inf => PyVal.inf
  | PyVal.neginf => PyVal.inf
  | PyVal.nan => PyVal.nan

/-- IEEE `<` on parsed values: exact on finite doubles, `False` whenever an
operand is NaN. -/
def fpLt : PyVal → PyVal → Bool
  | PyVal.finite n1 t1, PyVal.finite n2 t2 =>
    decide (n1 * 2 ^ (t1 - min t1 t2).toNat < n2 * 2 ^ (t2 - min t1 t2).toNat)
  | PyVal.finite _ _, PyVal.inf => true
  | PyVal.neginf, PyVal.finite _ _ => true
  | PyVal.neginf, PyVal.inf => true
  | _, _ => false

/-- The source's tolerance literal `1e-5` as the double it denotes. -/
def tol64 : PyVal := roundDec false 1 5

/-- `abs(pred_float - ref_float) < 1e-5` on parsed values, operation by
operation in binary64: subtract (with rounding), take the absolute value,
compare with the double `1e-5`.  Any NaN comparison (in particular
`abs(inf - inf)`) is `False`. -/
def pyClose (a b : PyVal) : Bool :=
  fpLt (fpAbs (fpSub a b)) tol64

/-- The real value of a finite double `n · 2 ^ t`, as a rational. -/
def dval (n t : ℤ) : ℚ := (n : ℚ) * 2 ^ t

/-- `evaluate_gsm8k_response` from `src/prompt_runner.py`. -/
def evaluate_gsm8k_response (out : List Char) (ref : Option (List Char)) : Bool :=
  match ref with
  | none => false
  | some r =>
    match extract_gsm8k_answer out with
    | none => false
    | some p =>
      match pyFloat p, pyFloat r with
      | some a, some b => pyClose a b
      | _, _ => pstrip p == pstrip r

/-- A few-shot example record as consumed by the prompt builder. -/
structure FewShotExample where
  question : List Char
  answer : List Char
deriving DecidableEq

/-- The two f-string lines emitted per few-shot example. -/
def exampleBlock (ex : FewShotExample) : List Char :=
  "Question: ".toList ++ ex.question ++ "\nAnswer: ".toList ++ ex.answer ++ "\n\n".toList

/-- The fixed instruction preamble of the prompt. -/
def promptHeader : List Char :=
  ("Solve the following math problems step-by-step. " ++
   "Your final answer should be demarcated with #### followed by the number.\n\n").toList

/-- The target-question suffix of the prompt. -/
def promptTail (q : List Char) : List Char :=
  "Question: ".toList ++ q ++ "\n".toList ++ "Answer:".toList

/-- `create_gsm8k_prompt` from `src/prompt_runner.py`, as the source writes
it: a string accumulator extended once per example, then the tail. -/
def create_gsm8k_prompt (question_to_solve : List Char)
    (few_shot_examples : List FewShotExample) : List Char :=
  (few_shot_examples.foldl (fun acc ex => acc ++ exampleBlock ex) promptHeader) ++
    promptTail question_to_solve

/-- A development-set record (fields read by the loop). -/
structure DevRecord where
  id : List Char
  question : List Char
  reference_final_answer : Option (List Char)
  reference_answer_details : List Char
deriving DecidableEq

/-- A failure dictionary appended by the loop. -/
structure FailureCase where
  id : List Char
  question : List Char
  reference_solution : List Char
  reference_final_answer : Option (List Char)
  generated_prompt : List Char
  llm_output : List Char
  extracted_prediction : Option (List Char)
deriving DecidableEq

/-- The sentinel raw output recorded when no response was obtained. -/
def ERROR_NO_RESPONSE : List Char := "ERROR_NO_RESPONSE".toList

/-- Loop accumulators of `run_baseline_evaluation`. -/
structure EvalState where
  correct : ℕ
  total : ℕ
  failures : List FailureCase
deriving DecidableEq

/-- The failure dictionary of the no-response branch. -/
def noResponseFailure (r : DevRecord) (full_prompt : List Char) : FailureCase :=
  ⟨r.id, r.question, r.reference_answer_details, r.reference_final_answer,
    full_prompt, ERROR_NO_RESPONSE, none⟩

/-- The failure dictionary of the scored-incorrect branch. -/
def incorrectFailure (r : DevRecord) (full_prompt out : List Char) : FailureCase :=
  ⟨r.id, r.question, r.reference_answer_details, r.reference_final_answer,
    full_prompt, out, extract_gsm8k_answer out⟩

/-- One iteration of the loop body of `run_baseline_evaluation`.  The
completion provider is a capability `oracle : prompt → Option raw`; the
source's `get_llm_completion` already converts an API exception or an empty
content list into `None`, and the loop's `if llm_output:` additionally
treats an empty string as no response. -/
def processRecord (fs : List FewShotExample) (oracle : List Char → Option (List Char))
    (st : EvalState) (r : DevRecord) : EvalState :=
  let full_prompt := create_gsm8k_prompt r.question fs
  match oracle full_prompt with
  | some out =>
    if out ≠ [] then
      if evaluate_gsm8k_response out r.reference_final_answer then
        ⟨st.correct + 1, st.total + 1, st.failures⟩
      else
        ⟨st.correct, st.total + 1, st.failures ++ [incorrectFailure r full_prompt out]⟩
    else ⟨st.correct, st.total + 1, st.failures ++ [noResponseFailure r full_prompt]⟩
  | none => ⟨st.correct, st.total + 1, st.failures ++ [noResponseFailure r full_prompt]⟩

/-- Accuracy and failure list from the final loop state:
`(correct / total) * 100 if total > 0 else 0.0`. -/
def finishRun (st : EvalState) : ℚ × List FailureCase :=
  (if 0 < st.total then ((st.correct : ℚ) / (st.total : ℚ)) * 100 else 0, st.failures)

/-- `run_baseline_evaluation` from `src/prompt_runner.py`, with the dev set
already loaded and the provider abstracted as `oracle`. -/
def run_baseline_evaluation (dev : List DevRecord) (fs : List FewShotExample)
    (oracle : List Char → Option (List Char)) : ℚ × List FailureCase :=
  finishRun (dev.foldl (processRecord fs oracle) ⟨0, 0, []⟩)

/-- Verdict the loop reaches for one record: a response was obtained,
nonempty, and scored correct. -/
def recordCorrect (fs : List FewShotExample) (oracle : List Char → Option (List Char))
    (r : DevRecord) : Bool :=
  match oracle (create_gsm8k_prompt r.question fs) with
  | some out => !out.isEmpty && evaluate_gsm8k_response out r.reference_final_answer
  | none => false

/-- The failure dictionary a not-correct record contributes. -/
def recordFailure (fs : List FewShotExample) (oracle : List Char → Option (List Char))
    (r : DevRecord) : FailureCase :=
  match oracle (create_gsm8k_prompt r.question fs) with
  | some out =>
    if out ≠ [] then incorrectFailure r (create_gsm8k_prompt r.question fs) out
    else noResponseFailure r (create_gsm8k_prompt r.question fs)
  | none => noResponseFailure r (create_gsm8k_prompt r.question fs)

/-- Number of records scored correct. -/
def countCorrect (dev : List DevRecord) (fs : List FewShotExample)
    (oracle : List Char → Option (List Char)) : ℕ :=
  (dev.filter (recordCorrect fs oracle)).length

/-- Failure dictionaries contributed by the not-correct records, in order. -/
def failureList (dev : List DevRecord) (fs : List FewShotExample)
    (oracle : List Char → Option (List Char)) : List FailureCase :=
  (dev.filter (fun r => !recordCorrect fs oracle r)).map (recordFailure fs oracle)

/-! ### Structural lemmas about the scanners -/

theorem optc_append (p : Char → Bool) (l : List Char) :
    (optc p l).1 ++ (optc p l).2 = l := by
  cases l with
  | nil => rfl
  | cons c rest => by_cases h : p c <;> simp [optc, h]

theorem matchAlt1_spec {l m r : List Char} (h : matchAlt1 l = some (m, r)) :
    m ++ r = l ∧ m ≠ [] := by
  simp only [matchAlt1] at h
  split at h
  · exact absurd h (by simp)
  · rename_i hc
    simp only [Option.some.injEq, Prod.mk.injEq] at h
    obtain ⟨hm, hr⟩ := h
    subst hm hr
    constructor
    · rw [List.append_assoc, List.append_assoc, List.append_assoc, List.append_assoc,
        List.takeWhile_append_dropWhile, optc_append, List.takeWhile_append_dropWhile,
        List.takeWhile_append_dropWhile, optc_append]
    · intro hnil
      have hlen := congrArg List.length hnil
      simp only [List.length_append, List.length_nil] at hlen
      exact hc (List.eq_nil_of_length_eq_zero (by omega))

theorem matchAlt2_spec {l m r : List Char} (h : matchAlt2 l = some (m, r)) :
    m ++ r = l ∧ m ≠ [] := by
  simp only [matchAlt2] at h
  split at h
  · exact absurd h (by simp)
  · rename_i hd
    simp only [Option.some.injEq, Prod.mk.injEq] at h
    obtain ⟨hm, hr⟩ := h
    subst hm hr
    constructor
    · rw [List.append_assoc, List.append_assoc, List.append_assoc,
        List.takeWhile_append_dropWhile, optc_append, List.takeWhile_append_dropWhile,
        optc_append]
    · intro hnil
      have hlen := congrArg List.length hnil
      simp only [List.length_append, List.length_nil] at hlen
      exact hd (List.eq_nil_of_length_eq_zero (by omega))

theorem matchNum_spec {l m r : List Char} (h : matchNum l = some (m, r)) :
    m ++ r = l ∧ m ≠ [] := by
  unfold matchNum at h
  split at h
  · rename_i p hp
    obtain ⟨rfl⟩ : p = (m, r) := by injection h
    exact matchAlt1_spec hp
  · exact matchAlt2_spec h

theorem matchNum_length {l m r : List Char} (h : matchNum l = some (m, r)) :
    r.length < l.length := by
  obtain ⟨happ, hne⟩ := matchNum_spec h
  have := congrArg List.length happ
  rw [List.length_append] at this
  have hm : 0 < m.length := List.length_pos.mpr hne
  omega

theorem findAux_nil (n : ℕ) : findAux n [] = [] := by
  cases n <;> rfl

theorem findAux_eq_of_le :
    ∀ (n : ℕ) (m : ℕ) (l : List Char), l.length ≤ n → l.length ≤ m →
      findAux n l = findAux m l := by
  intro n
  induction n with
  | zero =>
    intro m l hn _
    have : l = [] := List.length_eq_zero.mp (Nat.le_zero.mp hn)
    subst this
    rw [findAux_nil, findAux_nil]
  | succ n ih =>
    intro m l hn hm
    cases l with
    | nil => rw [findAux_nil, findAux_nil]
    | cons c rest =>
      have hm1 : ∃ m', m = m' + 1 := by
        cases m with
        | zero => simp at hm
        | succ m' => exact ⟨m', rfl⟩
      obtain ⟨m', rfl⟩ := hm1
      simp only [findAux]
      simp only [List.length_cons] at hn hm
      rcases hmn : matchNum (c :: rest) with _ | ⟨mm, r⟩
      · show findAux n rest = findAux m' rest
        exact ih m' rest (by omega) (by omega)
      · have hlt := matchNum_length hmn
        simp only [List.length_cons] at hlt
        show mm :: findAux n r = mm :: findAux m' r
        rw [ih m' r (by omega) (by omega)]

/-- The fuel of `findAux` is irrelevant whenever it is at least the length
of the input, so `findNums` is the total left-to-right scan of
`re.findall`. -/
theorem findAux_adequate (n : ℕ) (l : List Char) (h : l.length ≤ n) :
    findAux n l = findNums l :=
  findAux_eq_of_le n l.length l h (Nat.le_refl _)

/-! ### Lemmas about the marker search -/

theorem markerHead_nil : markerHead [] = none := rfl

theorem markerSearch_first :
    ∀ (t : List Char) (i : ℕ), markerHead (t.drop i) ≠ none →
      (∀ j, j < i → markerHead (t.drop j) = none) →
      markerSearch t = markerHead (t.drop i) := by
  intro t
  induction t with
  | nil =>
    intro i h1 _
    exact absurd (by rw [List.drop_nil]; rfl) h1
  | cons c rest ih =>
    intro i h1 h2
    cases i with
    | zero =>
      simp only [List.drop_zero] at h1 ⊢
      rcases hm : markerHead (c :: rest) with _ | g
      · exact absurd hm h1
      · simp [markerSearch, hm]
    | succ j =>
      have h0 : markerHead (c :: rest) = none := by
        have := h2 0 (Nat.succ_pos j)
        simpa using this
      rw [List.drop_succ_cons] at h1 ⊢
      have step : markerSearch (c :: rest) = markerSearch rest := by
        simp [markerSearch, h0]
      rw [step]
      refine ih j h1 ?_
      intro k hk
      have := h2 (k + 1) (Nat.succ_lt_succ hk)
      rwa [List.drop_succ_cons] at this

theorem markerSearch_nil_ne {t : List Char} {g : List Char}
    (h : markerSearch t = some g) : t ≠ [] := by
  rintro rfl
  simp [markerSearch] at h

theorem extract_marker {t g : List Char} (h : markerSearch t = some g) :
    extract_gsm8k_answer t = some (cleanStr g) := by
  have ht : t ≠ [] := markerSearch_nil_ne h
  simp [extract_gsm8k_answer, ht, h]

theorem extract_no_marker {t : List Char} (ht : t ≠ [])
    (h : markerSearch t = none) :
    extract_gsm8k_answer t = fallbackScan t := by
  simp [extract_gsm8k_answer, ht, h]

/-! ### Claim C6 -/

/-- C6: for every raw model output, if the reference final answer is absent,
`evaluate_gsm8k_response` returns `false` regardless of the output. -/
theorem c6_missing_reference_false (out : List Char) :
    evaluate_gsm8k_response out none = false := rfl

/-! ### Claim C2 -/

/-- C2 counterexample: on the input `"#### ."` the captured literal is a
lone decimal point and the extractor RETURNS it (the marker branch performs
no lone-dot rejection), contradicting the claim that this holds in both
branches. -/
theorem c2_counterexample :
    markerSearch "#### .".toList = some ['.'] ∧
    extract_gsm8k_answer "#### .".toList = some ['.'] := by
  exact ⟨by decide, by decide⟩

/-- C2 amended: the lone-dot (and empty) rejection happens only in the
fallback branch: whenever the marker pattern does not match, the extractor
never returns a lone decimal point nor an empty literal. -/
theorem c2_fallback_rejects_lone_dot (t s : List Char)
    (h1 : markerSearch t = none) (h2 : extract_gsm8k_answer t = some s) :
    s ≠ ['.'] ∧ s ≠ [] := by
  have ht : t ≠ [] := by rintro rfl; simp [extract_gsm8k_answer] at h2
  rw [extract_no_marker ht h1] at h2
  unfold fallbackScan at h2
  rcases hg : (findNums t).getLast? with _ | m
  · simp only [hg] at h2
    exact absurd h2 (by simp)
  · simp only [hg] at h2
    by_cases hc : cleanStr m = [] ∨ cleanStr m = ['.']
    · rw [if_pos hc] at h2
      exact absurd h2 (by simp)
    · rw [if_neg hc] at h2
      push_neg at hc
      injection h2 with h3
      subst h3
      exact ⟨hc.2, hc.1⟩

/-- C2 witness: a concrete fallback extraction, fed through the amended
theorem. -/
theorem c2_fallback_rejects_lone_dot_witness :
    extract_gsm8k_answer "x 5".toList = some "5".toList ∧
    "5".toList ≠ ['.'] :=
  ⟨by decide,
   (c2_fallback_rejects_lone_dot "x 5".toList "5".toList (by decide) (by decide)).1⟩

/-! ### Claim C4 -/

/-- C4 counterexample: `"1 ,"` has no marker and contains numeric-literal
substrings (the scan finds `"1"` and `" ,"`), yet the extractor returns
`none` — not the last literal with separators stripped — because the last
scan match strips to the empty string. -/
theorem c4_counterexample :
    markerSearch "1 ,".toList = none ∧
    findNums "1 ,".toList = ["1".toList, " ,".toList] ∧
    extract_gsm8k_answer "1 ,".toList = none := by
  exact ⟨by decide, by decide, by decide⟩

/-- C4 amended: when the marker is absent, the extractor returns the LAST
match of the numeric scan with commas removed and whitespace trimmed,
provided that cleaned result is nonempty and not a lone decimal point;
otherwise it returns `none` even when earlier numeric literals exist, and
it returns `none` when the scan finds nothing. -/
theorem c4_fallback_last_number (t : List Char) (h0 : t ≠ [])
    (h1 : markerSearch t = none) :
    (findNums t = [] → extract_gsm8k_answer t = none) ∧
    (∀ m, (findNums t).getLast? = some m →
      ((cleanStr m = [] ∨ cleanStr m = ['.']) → extract_gsm8k_answer t = none) ∧
      (cleanStr m ≠ [] → cleanStr m ≠ ['.'] →
        extract_gsm8k_answer t = some (cleanStr m))) := by
  have he := extract_no_marker h0 h1
  refine ⟨?_, ?_⟩
  · intro hn
    rw [he]
    simp [fallbackScan, hn]
  · intro m hm
    constructor
    · intro hd
      rw [he]
      simp only [fallbackScan, hm]
      rw [if_pos hd]
    · intro hne hnd
      rw [he]
      simp [fallbackScan, hm, hne, hnd]

/-- C4 witness: the spec's own fallback example. -/
theorem c4_fallback_last_number_witness :
    extract_gsm8k_answer "no marker but answer is 17".toList = some "17".toList := by
  have h := ((c4_fallback_last_number "no marker but answer is 17".toList
    (by decide) (by decide)).2 (" 17".toList) (by decide)).2 (by decide) (by decide)
  rw [h]
  decide

/-! ### Claim C7 -/

/-- C7: whenever the marker pattern matches (marker token, optional
whitespace, then a numeric literal), the extractor returns the first such
captured literal with commas stripped, and coincides with the pure marker
branch — the fallback scan is never consulted. -/
theorem c7_marker_branch (t g : List Char) (h : markerSearch t = some g) :
    extract_gsm8k_answer t = some (cleanStr g) ∧
    extract_gsm8k_answer t = extractMarkerOnly t := by
  have hx := extract_marker h
  have ht := markerSearch_nil_ne h
  refine ⟨hx, ?_⟩
  rw [hx]
  simp [extractMarkerOnly, ht, h]

/-- C7 witness: the spec's thousands-separator example. -/
theorem c7_marker_branch_witness :
    extract_gsm8k_answer "The answer is #### 1,024.5".toList = some "1024.5".toList := by
  have h := (c7_marker_branch "The answer is #### 1,024.5".toList
    ("1,024.5".toList) (by decide)).1
  rw [h]
  decide

/-! ### Claim C10 -/

/-- C10: the extractor uses the FIRST position at which the marker pattern
matches (a later match never overrides it), and the fallback scan is
consulted exactly when the marker pattern matches nowhere. -/
theorem c10_first_marker (t : List Char) (i : ℕ)
    (h1 : markerHead (t.drop i) ≠ none)
    (h2 : ∀ j, j < i → markerHead (t.drop j) = none) :
    markerSearch t = markerHead (t.drop i) ∧
    extract_gsm8k_answer t = Option.map cleanStr (markerHead (t.drop i)) ∧
    (∀ u : List Char, u ≠ [] → markerSearch u = none →
      extract_gsm8k_answer u = fallbackScan u) := by
  have hms := markerSearch_first t i h1 h2
  refine ⟨hms, ?_, ?_⟩
  · rcases hg : markerHead (t.drop i) with _ | g
    · exact absurd hg h1
    · rw [hg] at hms
      rw [extract_marker hms]
      rfl
  · intro u hu hnone
    exact extract_no_marker hu hnone

/-- C10 witness: two marker occurrences; the literal after the first one
(at drop index 2) wins. -/
theorem c10_first_marker_witness :
    extract_gsm8k_answer "x #### 1 y #### 2".toList = some "1".toList := by
  have h := (c10_first_marker "x #### 1 y #### 2".toList 2
    (by decide) (by decide)).2.1
  rw [h]
  decide

/-! ### The tolerance comparison, read on double values -/

/-- The fuelled logarithm agrees with `Nat.log2` whenever the fuel covers
the input. -/
theorem log2fuel_eq : ∀ (fuel n : ℕ), n ≤ fuel → log2fuel fuel n = Nat.log2 n := by
  intro fuel
  induction fuel with
  | zero =>
    intro n hn
    have h0 : n = 0 := Nat.le_zero.mp hn
    subst h0
    simp [log2fuel]
  | succ fuel ih =>
    intro n hn
    show (if 2 ≤ n then log2fuel fuel (n / 2) + 1 else 0) = Nat.log2 n
    unfold Nat.log2
    simp only [ge_iff_le]
    by_cases h2 : 2 ≤ n
    · rw [if_pos h2, if_pos h2, ih (n / 2) (by omega)]
    · rw [if_neg h2, if_neg h2]

/-- The kernel-executable logarithm of the rounding pipeline is
`Nat.log2`. -/
theorem nlog2_eq (n : ℕ) : nlog2 n = Nat.log2 n :=
  log2fuel_eq n n (Nat.le_refl n)

/-! ### CPython cross-check vectors for the binary64 model -/

set_option maxRecDepth 400000 in
/-- `float("9007199254740993")` (`2 ^ 53 + 1`) rounds the tie to the even
neighbour `9007199254740992 = 4503599627370496 · 2`, as in CPython. -/
theorem pyFloat_tie_to_even :
    pyFloat "9007199254740993".toList =
      some (PyVal.finite 4503599627370496 1) := by decide

set_option maxRecDepth 400000 in
/-- `float("2.4e-324")` underflows to zero while `float("2.5e-324")` is the
smallest subnormal `2 ^ (-1074)`, as in CPython. -/
theorem pyFloat_subnormal_boundary :
    pyFloat "2.4e-324".toList = some (PyVal.finite 0 (-1074)) ∧
    pyFloat "2.5e-324".toList = some (PyVal.finite 1 (-1074)) := by
  exact ⟨by decide, by decide⟩

set_option maxRecDepth 400000 in
/-- A literal just under the overflow threshold parses to the largest
finite double `(2 ^ 53 - 1) · 2 ^ 971`; one decimal step beyond it
overflows to infinity, as in CPython. -/
theorem pyFloat_overflow_boundary :
    pyFloat "1.7976931348623158e308".toList =
      some (PyVal.finite 9007199254740991 971) ∧
    pyFloat "1.7976931348623159e308".toList = some PyVal.inf := by
  exact ⟨by decide, by decide⟩

set_option maxRecDepth 400000 in
/-- A 311-digit integer literal overflows `float()` to `inf` with no
exception — pure digit strings reach the saturation path. -/
theorem pyFloat_digits_overflow :
    pyFloat ('1' :: List.replicate 310 '0') = some PyVal.inf := by decide

set_option maxRecDepth 400000 in
/-- The scorer on an overflowing 311-digit extracted answer with the
identical 311-digit reference computes `abs(inf - inf) = nan`, and the NaN
comparison makes the verdict `False`. -/
theorem scorer_overflow_false :
    evaluate_gsm8k_response ("#### 1".toList ++ List.replicate 310 '0')
      (some ('1' :: List.replicate 310 '0')) = false := by decide

set_option maxRecDepth 400000 in
/-- Near `1e11` the spacing of doubles is `2 ^ (-16) ≈ 1.53e-5`: a true
decimal difference of `8e-6` rounds up to one ulp, so the scorer returns
`False` although the exact decimal difference is below the tolerance. -/
theorem scorer_double_spacing_false :
    evaluate_gsm8k_response "#### 100000000000.000008".toList
      (some "100000000000".toList) = false := by decide

/-- `fpLt` on two finite doubles is exactly the order of their real
values. -/
theorem fpLt_finite_iff (n1 t1 n2 t2 : ℤ) :
    fpLt (PyVal.finite n1 t1) (PyVal.finite n2 t2) = true ↔
      dval n1 t1 < dval n2 t2 := by
  rw [show fpLt (PyVal.finite n1 t1) (PyVal.finite n2 t2) =
      decide (n1 * 2 ^ (t1 - min t1 t2).toNat <
        n2 * 2 ^ (t2 - min t1 t2).toNat) from rfl]
  rw [decide_eq_true_eq]
  unfold dval
  have hl := min_le_left t1 t2
  have hr := min_le_right t1 t2
  have hpos : (0 : ℚ) < 2 ^ (-(min t1 t2)) := zpow_pos (by norm_num) _
  have key : ∀ (n t : ℤ), 0 ≤ t - min t1 t2 →
      ((n * 2 ^ (t - min t1 t2).toNat : ℤ) : ℚ) =
        (n : ℚ) * 2 ^ t * 2 ^ (-(min t1 t2)) := by
    intro n t ht
    push_cast
    rw [← zpow_natCast (2 : ℚ) (t - min t1 t2).toNat, Int.toNat_of_nonneg ht,
      zpow_sub₀ (by norm_num : (2 : ℚ) ≠ 0), zpow_neg, div_eq_mul_inv]
    ring
  have hcast : ((n1 * 2 ^ (t1 - min t1 t2).toNat : ℤ) : ℚ) <
      ((n2 * 2 ^ (t2 - min t1 t2).toNat : ℤ) : ℚ) ↔
      (n1 * 2 ^ (t1 - min t1 t2).toNat < n2 * 2 ^ (t2 - min t1 t2).toNat) :=
    Int.cast_lt
  rw [← hcast, key n1 t1 (by omega), key n2 t2 (by omega)]
  exact mul_lt_mul_right hpos

/-! ### Claim C5 -/

/-- C5: with a reference present and a prediction extracted, the scorer
returns true iff the absolute difference of the two parsed doubles is below
the tolerance `1e-5`, each operation in binary64 arithmetic exactly as the
source computes it; when the rounded absolute difference and the tolerance
are finite doubles, that comparison is the rational order of their values;
and whenever either side fails to parse, the scorer falls back to
whitespace-trimmed string equality. -/
theorem c5_scorer_tolerance (out r p : List Char)
    (hx : extract_gsm8k_answer out = some p) :
    (∀ a b : PyVal, pyFloat p = some a → pyFloat r = some b →
      (evaluate_gsm8k_response out (some r) = true ↔
        fpLt (fpAbs (fpSub a b)) tol64 = true) ∧
      (∀ (n t nt tt : ℤ), fpAbs (fpSub a b) = PyVal.finite n t →
        tol64 = PyVal.finite nt tt →
        (evaluate_gsm8k_response out (some r) = true ↔ dval n t < dval nt tt))) ∧
    ((pyFloat p = none ∨ pyFloat r = none) →
      (evaluate_gsm8k_response out (some r) = true ↔ pstrip p = pstrip r)) := by
  constructor
  · intro a b h1 h2
    have he : evaluate_gsm8k_response out (some r) = pyClose a b := by
      simp [evaluate_gsm8k_response, hx, h1, h2]
    constructor
    · rw [he]
      exact Iff.rfl
    · intro n t nt tt hf ht
      rw [he]
      rw [show pyClose a b = fpLt (fpAbs (fpSub a b)) tol64 from rfl, hf, ht]
      exact fpLt_finite_iff n t nt tt
  · intro hn
    have he : evaluate_gsm8k_response out (some r) = (pstrip p == pstrip r) := by
      rcases hn with hp | hr
      · simp [evaluate_gsm8k_response, hx, hp]
      · rcases hp : pyFloat p with _ | a
        · simp [evaluate_gsm8k_response, hx, hp]
        · simp [evaluate_gsm8k_response, hx, hp, hr]
    rw [he]
    exact beq_iff_eq ..

set_option maxRecDepth 100000 in
/-- C5 witness: the spec's two concrete scorer examples, derived through
the theorem. -/
theorem c5_scorer_tolerance_witness :
    evaluate_gsm8k_response "#### 10".toList (some "10.0".toList) = true ∧
    evaluate_gsm8k_response "#### 11".toList (some "10".toList) = false := by
  constructor
  · exact (((c5_scorer_tolerance "#### 10".toList "10.0".toList "10".toList
      (by decide)).1 _ _ rfl rfl).1).mpr (by decide)
  · have h := ((c5_scorer_tolerance "#### 11".toList "10".toList "11".toList
      (by decide)).1 _ _ rfl rfl).1
    cases he : evaluate_gsm8k_response "#### 11".toList (some "10".toList)
    · rfl
    · exact absurd (h.mp he) (by decide)

/-! ### The loop body, case-analysed -/

/-- One loop iteration either counts the record correct or appends exactly
its failure dictionary, and always advances `total` by one. -/
theorem processRecord_eq (fs : List FewShotExample)
    (oracle : List Char → Option (List Char)) (st : EvalState) (r : DevRecord) :
    processRecord fs oracle st r =
      if recordCorrect fs oracle r then ⟨st.correct + 1, st.total + 1, st.failures⟩
      else ⟨st.correct, st.total + 1, st.failures ++ [recordFailure fs oracle r]⟩ := by
  unfold processRecord recordCorrect recordFailure
  rcases ho : oracle (create_gsm8k_prompt r.question fs) with _ | out
  · simp [ho]
  · simp only [ho]
    by_cases hout : out = []
    · subst hout
      simp
    · by_cases hev : evaluate_gsm8k_response out r.reference_final_answer
      · simp [hout, hev, List.isEmpty_iff]
      · simp [hout, hev, List.isEmpty_iff]

/-- Unrolling the whole loop from an arbitrary starting state. -/
theorem foldl_process (fs : List FewShotExample)
    (oracle : List Char → Option (List Char)) :
    ∀ (dev : List DevRecord) (st : EvalState),
      dev.foldl (processRecord fs oracle) st =
        ⟨st.correct + countCorrect dev fs oracle, st.total + dev.length,
          st.failures ++ failureList dev fs oracle⟩ := by
  intro dev
  induction dev with
  | nil => intro st; simp [countCorrect, failureList]
  | cons r rest ih =>
    intro st
    rw [List.foldl_cons, processRecord_eq]
    cases hrc : recordCorrect fs oracle r
    · rw [if_neg (by simp [hrc])]
      rw [ih]
      simp only [EvalState.mk.injEq]
      refine ⟨?_, by simp [List.length_cons]; omega, ?_⟩
      · simp only [countCorrect, List.filter_cons, hrc]
        simp
      · simp only [failureList, List.filter_cons, hrc]
        simp [List.append_assoc]
    · rw [if_pos (by simp [hrc])]
      rw [ih]
      simp only [EvalState.mk.injEq]
      refine ⟨?_, by simp [List.length_cons]; omega, ?_⟩
      · simp only [countCorrect, List.filter_cons, hrc]
        simp [List.length_cons]
        omega
      · simp only [failureList, List.filter_cons, hrc]
        simp

/-- Counting lemma: the correct and the not-correct records partition the
dev set. -/
theorem length_filter_not_add {α : Type} (p : α → Bool) (l : List α) :
    (l.filter p).length + (l.filter (fun a => !p a)).length = l.length := by
  induction l with
  | nil => rfl
  | cons a l ih => cases ha : p a <;> simp [List.filter_cons, ha] <;> omega

/-! ### Claim C9 -/

/-- C9: after the loop, `total` equals the number of records, `correct`
counts exactly the records scored correct, the failure list holds exactly
one entry per not-correct record (in order), and hence
`correct + failures = total`. -/
theorem c9_loop_invariant (dev : List DevRecord) (fs : List FewShotExample)
    (oracle : List Char → Option (List Char)) :
    (dev.foldl (processRecord fs oracle) ⟨0, 0, []⟩).total = dev.length ∧
    (dev.foldl (processRecord fs oracle) ⟨0, 0, []⟩).correct =
      countCorrect dev fs oracle ∧
    (dev.foldl (processRecord fs oracle) ⟨0, 0, []⟩).failures =
      failureList dev fs oracle ∧
    (dev.foldl (processRecord fs oracle) ⟨0, 0, []⟩).correct +
      ((dev.foldl (processRecord fs oracle) ⟨0, 0, []⟩).failures).length =
      dev.length := by
  rw [foldl_process]
  refine ⟨by simp, by simp, by simp, ?_⟩
  have h := length_filter_not_add (recordCorrect fs oracle) dev
  simp only [countCorrect, failureList]
  simp [List.length_map]
  omega

/-! ### Claim C1 -/

set_option maxRecDepth 100000 in
/-- C1 counterexample: a one-record run in which the prediction is correct
returns accuracy `100`, not `c / n = 1 / 1`: the source computes
`(correct / total) * 100`, a percentage. -/
theorem c1_counterexample :
    (run_baseline_evaluation
      [⟨"r1".toList, "q".toList, some "5".toList, "sol".toList⟩] []
      (fun _ => some "#### 5".toList)).1 = 100 ∧
    countCorrect [⟨"r1".toList, "q".toList, some "5".toList, "sol".toList⟩] []
      (fun _ => some "#### 5".toList) = 1 ∧
    ((100 : ℚ) ≠ (1 : ℚ) / 1) := by
  refine ⟨?_, by decide, by norm_num⟩
  have hst : ([⟨"r1".toList, "q".toList, some "5".toList, "sol".toList⟩] :
      List DevRecord).foldl
        (processRecord [] (fun _ => some "#### 5".toList)) ⟨0, 0, []⟩ =
      ⟨1, 1, []⟩ := by decide
  unfold run_baseline_evaluation finishRun
  rw [hst]
  norm_num

/-- C1 amended: the returned accuracy is the PERCENTAGE
`(c / n) * 100` (still `0.0` when the dev set is empty, with no division
error). -/
theorem c1_accuracy_is_percentage (dev : List DevRecord)
    (fs : List FewShotExample) (oracle : List Char → Option (List Char)) :
    (run_baseline_evaluation dev fs oracle).1 =
      if dev.length = 0 then 0
      else ((countCorrect dev fs oracle : ℚ) / (dev.length : ℚ)) * 100 := by
  unfold run_baseline_evaluation finishRun
  rw [foldl_process]
  by_cases hl : dev.length = 0
  · simp [hl]
  · have hpos : 0 < dev.length := Nat.pos_of_ne_zero hl
    simp [hl, hpos]

/-! ### Claim C3 -/

/-- C3: if every provider call fails (`None`) or returns an empty result,
the loop never aborts: it finishes with accuracy `0`, and its failure list
holds exactly one entry per record, each carrying the no-response sentinel
as raw output and no extracted prediction. -/
theorem c3_provider_failure_isolation (dev : List DevRecord)
    (fs : List FewShotExample) (oracle : List Char → Option (List Char))
    (h : ∀ pr, oracle pr = none ∨ oracle pr = some []) :
    (run_baseline_evaluation dev fs oracle).1 = 0 ∧
    (run_baseline_evaluation dev fs oracle).2 =
      dev.map (fun r => noResponseFailure r (create_gsm8k_prompt r.question fs)) ∧
    (∀ fc ∈ (run_baseline_evaluation dev fs oracle).2,
      fc.llm_output = ERROR_NO_RESPONSE ∧ fc.extracted_prediction = none) := by
  have hrc : ∀ r, recordCorrect fs oracle r = false := by
    intro r
    unfold recordCorrect
    rcases h (create_gsm8k_prompt r.question fs) with h' | h' <;> rw [h'] <;> simp
  have hrf : ∀ r, recordFailure fs oracle r =
      noResponseFailure r (create_gsm8k_prompt r.question fs) := by
    intro r
    unfold recordFailure
    rcases h (create_gsm8k_prompt r.question fs) with h' | h' <;> rw [h'] <;> simp
  have hcc : countCorrect dev fs oracle = 0 := by
    unfold countCorrect
    have hf : dev.filter (recordCorrect fs oracle) = [] :=
      List.filter_eq_nil_iff.mpr (fun a _ => by simp [hrc a])
    rw [hf]
    rfl
  have hfl : failureList dev fs oracle =
      dev.map (fun r => noResponseFailure r (create_gsm8k_prompt r.question fs)) := by
    unfold failureList
    have hf : dev.filter (fun r => !recordCorrect fs oracle r) = dev :=
      List.filter_eq_self.mpr (fun a _ => by simp [hrc a])
    rw [hf]
    exact List.map_congr_left (fun a _ => hrf a)
  have h2 : (run_baseline_evaluation dev fs oracle).2 =
      dev.map (fun r => noResponseFailure r (create_gsm8k_prompt r.question fs)) := by
    unfold run_baseline_evaluation finishRun
    rw [foldl_process, hfl]
    simp
  refine ⟨?_, h2, ?_⟩
  · unfold run_baseline_evaluation finishRun
    rw [foldl_process, hcc]
    split <;> simp
  · intro fc hm
    rw [h2] at hm
    simp only [List.mem_map] at hm
    obtain ⟨r, _, rfl⟩ := hm
    exact ⟨rfl, rfl⟩

/-- C3 witness: a two-record dev set with an always-failing provider. -/
theorem c3_provider_failure_isolation_witness :
    (run_baseline_evaluation
      [⟨"a".toList, "qa".toList, some "1".toList, "sa".toList⟩,
       ⟨"b".toList, "qb".toList, some "2".toList, "sb".toList⟩] []
      (fun _ => none)).1 = 0 ∧
    (run_baseline_evaluation
      [⟨"a".toList, "qa".toList, some "1".toList, "sa".toList⟩,
       ⟨"b".toList, "qb".toList, some "2".toList, "sb".toList⟩] []
      (fun _ => none)).2 =
      [noResponseFailure ⟨"a".toList, "qa".toList, some "1".toList, "sa".toList⟩
        (create_gsm8k_prompt "qa".toList []),
       noResponseFailure ⟨"b".toList, "qb".toList, some "2".toList, "sb".toList⟩
        (create_gsm8k_prompt "qb".toList [])] := by
  have h := c3_provider_failure_isolation
    [⟨"a".toList, "qa".toList, some "1".toList, "sa".toList⟩,
     ⟨"b".toList, "qb".toList, some "2".toList, "sb".toList⟩] []
    (fun _ => none) (fun pr => Or.inl rfl)
  refine ⟨h.1, ?_⟩
  rw [h.2.1]
  simp [List.map_cons, List.map_nil]

/-! ### The prompt builder as header, blocks, and tail -/

/-- The accumulator loop of `create_gsm8k_prompt` appends the example
blocks in list order. -/
theorem foldl_blocks (l : List FewShotExample) :
    ∀ init : List Char,
      l.foldl (fun acc ex => acc ++ exampleBlock ex) init =
        init ++ (l.map exampleBlock).flatten := by
  induction l with
  | nil => intro init; simp
  | cons e l ih =>
    intro init
    rw [List.foldl_cons, ih]
    simp [List.append_assoc]

/-- The prompt is exactly header, then the example blocks in the given
order, then the target-question tail. -/
theorem create_gsm8k_prompt_eq (q : List Char) (es : List FewShotExample) :
    create_gsm8k_prompt q es =
      promptHeader ++ (es.map exampleBlock).flatten ++ promptTail q := by
  unfold create_gsm8k_prompt
  rw [foldl_blocks]

/-! ### Claim C8 -/

set_option maxRecDepth 4000 in
/-- C8 counterexample: two DISTINCT few-shot examples whose swap leaves the
prompt string unchanged, because the second example's rendered block is two
copies of the first's; so a swap need not change the output string. -/
theorem c8_counterexample :
    ((⟨"X".toList, "Y".toList⟩ : FewShotExample) ≠
      ⟨"X\nAnswer: Y\n\nQuestion: X".toList, "Y".toList⟩) ∧
    create_gsm8k_prompt "Q0".toList
      [⟨"X".toList, "Y".toList⟩,
       ⟨"X\nAnswer: Y\n\nQuestion: X".toList, "Y".toList⟩] =
    create_gsm8k_prompt "Q0".toList
      [⟨"X\nAnswer: Y\n\nQuestion: X".toList, "Y".toList⟩,
       ⟨"X".toList, "Y".toList⟩] := by
  exact ⟨by decide, by decide⟩

/-- C8 amended: the builder emits the Question/Answer pairs in exactly the
caller-supplied order (header, blocks in order, tail), and swapping two
examples always preserves the total prompt length; the string itself
usually changes but need not (see the counterexample). -/
theorem c8_order_and_length (q : List Char) (l1 l2 l3 : List FewShotExample)
    (e1 e2 : FewShotExample) :
    (create_gsm8k_prompt q (l1 ++ e1 :: (l2 ++ e2 :: l3))).length =
      (create_gsm8k_prompt q (l1 ++ e2 :: (l2 ++ e1 :: l3))).length ∧
    (∀ es : List FewShotExample,
      create_gsm8k_prompt q es =
        promptHeader ++ (es.map exampleBlock).flatten ++ promptTail q) := by
  refine ⟨?_, fun es => create_gsm8k_prompt_eq q es⟩
  rw [create_gsm8k_prompt_eq, create_gsm8k_prompt_eq]
  simp only [List.length_append, List.length_flatten, List.map_append,
    List.map_cons, List.map_map, List.sum_append, List.sum_cons, Function.comp]
  omega
